import Mathlib

namespace WcagTabindex

inductive Tag where
  | a | button | input | select | textarea | div | span | p
  | h1 | h2 | h3 | h4 | h5 | h6 | summary | details | other
deriving DecidableEq, Repr

structure Style where
  display : String := "block"
  visibility : String := "visible"
  opacity : String := "1"
  position : String := "static"
  width : String := "auto"
  height : String := "auto"
  overflow : String := "visible"
deriving DecidableEq, Repr

structure Elem where
  tag : Tag := Tag.other
  classes : List String := []
  role : Option String := none
  hasHref : Bool := false
  disabled : Bool := false
  contenteditableTrue : Bool := false
  ariaHidden : Bool := false
  ariaModal : Option String := none
  ariaDescribedby : Bool := false
  ariaHaspopupTrue : Bool := false
  ariaLabelClose : Bool := false
  dataTooltip : Bool := false
  dataToggle : Option String := none
  style : Style := {}
  tabindex : Option Int := none
  onkeydownAttr : Bool := false
  onkeyupAttr : Bool := false
  onkeypressAttr : Bool := false
  trapFlag : Bool := false
  tooltipHandled : Bool := false
  dropdownHandled : Bool := false
  keydownListeners : Nat := 0
deriving DecidableEq, Repr

instance : Inhabited Elem := ⟨{}⟩

structure Ctx where
  parentHidden : Bool := false
  inDetails : Bool := false
  parentHasDropdown : Bool := false
deriving DecidableEq, Repr

def visuallyHiddenStyle (s : Style) : Bool :=
  s.display == "none" || s.visibility == "hidden" || s.opacity == "0" ||
    (s.position == "absolute" && (s.width == "1px" || s.height == "1px") &&
      s.overflow == "hidden")

def isVisuallyHiddenOwn (e : Elem) : Bool := visuallyHiddenStyle e.style

def childCtx (c : Ctx) (e : Elem) : Ctx :=
  { parentHidden := c.parentHidden || isVisuallyHiddenOwn e || e.ariaHidden
    inDetails := c.inDetails || e.tag == Tag.details
    parentHasDropdown := e.classes.contains "has-dropdown" }

inductive Tree where
  | node : Elem → List Tree → Tree

def Tree.rootElem : Tree → Elem
  | .node e _ => e

def Tree.children : Tree → List Tree
  | .node _ cs => cs

mutual
def Tree.mapWith (f : Ctx → Elem → Elem) (c : Ctx) : Tree → Tree
  | .node e cs => .node (f c e) (Tree.mapWithL f (childCtx c e) cs)

def Tree.mapWithL (f : Ctx → Elem → Elem) (c : Ctx) : List Tree → List Tree
  | [] => []
  | t :: ts => Tree.mapWith f c t :: Tree.mapWithL f c ts
end

mutual
def Tree.nodesWith (c : Ctx) : Tree → List (Ctx × Elem)
  | .node e cs => (c, e) :: Tree.nodesWithL (childCtx c e) cs

def Tree.nodesWithL (c : Ctx) : List Tree → List (Ctx × Elem)
  | [] => []
  | t :: ts => Tree.nodesWith c t ++ Tree.nodesWithL c ts
end

theorem Tree.mapWithL_eq (f : Ctx → Elem → Elem) (c : Ctx) (cs : List Tree) :
    Tree.mapWithL f c cs = cs.map (fun t => t.mapWith f c) := by
  induction cs with
  | nil => rfl
  | cons t ts ih => rw [Tree.mapWithL, ih, List.map_cons]

theorem Tree.nodesWithL_eq (c : Ctx) (cs : List Tree) :
    Tree.nodesWithL c cs = (cs.map (fun t => t.nodesWith c)).flatten := by
  induction cs with
  | nil => rfl
  | cons t ts ih => rw [Tree.nodesWithL, ih, List.map_cons, List.flatten_cons]

theorem Tree.mapWith_node (f : Ctx → Elem → Elem) (c : Ctx) (e : Elem)
    (cs : List Tree) :
    Tree.mapWith f c (.node e cs) =
      .node (f c e) (cs.map (fun t => t.mapWith f (childCtx c e))) := by
  rw [Tree.mapWith, Tree.mapWithL_eq]

theorem Tree.nodesWith_node (c : Ctx) (e : Elem) (cs : List Tree) :
    Tree.nodesWith c (.node e cs) =
      (c, e) :: (cs.map (fun t => t.nodesWith (childCtx c e))).flatten := by
  rw [Tree.nodesWith, Tree.nodesWithL_eq]

theorem Tree.ind (P : Tree → Prop)
    (h : ∀ e cs, (∀ t ∈ cs, P t) → P (.node e cs)) : ∀ t, P t
  | .node e cs => h e cs (fun t ht => Tree.ind P h t)
termination_by t => sizeOf t
decreasing_by
  have := List.sizeOf_lt_of_mem ht
  simp only [Tree.node.sizeOf_spec]
  omega

/-- Elements of the whole subtree in document (pre-order) order, paired with
the context of ancestors that the DOM supplies (hidden ancestor, enclosing
details element, parent class list for child combinators). -/
def Tree.descWith (c : Ctx) : Tree → List (Ctx × Elem)
  | .node e cs => (cs.map (fun t => t.nodesWith (childCtx c e))).flatten

/-- Elements of the whole subtree including the root, in document order. -/
def Tree.elems (t : Tree) : List Elem :=
  (t.nodesWith {}).map (fun p => p.2)

/-- Projection of the managed attribute set: the tabindex attribute of every
node of the subtree, in document order. -/
def Tree.tabindexes (t : Tree) : List (Option Int) :=
  (t.nodesWith {}).map (fun p => p.2.tabindex)

/-- Exceptions escaping modelled DOM calls. -/
inductive JSError where
  | typeError
deriving DecidableEq, Repr

/-- Model of window.getComputedStyle: called on a missing (null or undefined)
element it raises a TypeError; on an element it returns its style. -/
def getComputedStyleCall : Option Elem → Except JSError Style
  | none => .error .typeError
  | some e => .ok e.style

/-- Model of TabindexManager.isVisuallyHidden: reads the computed style and
checks display, visibility, opacity and the 1px clip pattern. -/
def isVisuallyHidden (x : Option Elem) : Except JSError Bool := do
  let s ← getComputedStyleCall x
  pure (visuallyHiddenStyle s)

/-- Model of TabindexManager.hasHiddenParent: walks the parentElement chain
(supplied here as the ancestor list) and reports whether any ancestor is
visually hidden or carries aria-hidden true. On a missing element the access
to parentElement raises a TypeError. -/
def hasHiddenParent (x : Option Elem) (ancestors : List Elem) :
    Except JSError Bool :=
  match x with
  | none => .error .typeError
  | some _ => .ok (ancestors.any (fun q => isVisuallyHiddenOwn q || q.ariaHidden))

/-- The interactive ARIA roles enumerated in interactiveSelectors. -/
def interactiveRoles : List String :=
  ["button", "checkbox", "link", "menuitem", "option", "radio", "switch",
   "tab", "dialog", "alertdialog", "tooltip", "navigation", "menu", "tablist",
   "combobox", "listbox", "tree", "grid"]

/-- Model of element.matches over the interactiveSelectors list of
TabindexManager (used by isInteractiveElement, makeInteractiveElementsTabbable,
findTabbableElements and analyzeTabOrder). The descendant combinator
selector for summary inside details reads the ancestor context. -/
def isInteractiveElement (c : Ctx) (e : Elem) : Bool :=
  (e.tag == Tag.a && e.hasHref) ||
  ((e.tag == Tag.button || e.tag == Tag.input || e.tag == Tag.select ||
      e.tag == Tag.textarea) && !e.disabled) ||
  (match e.role with
   | some r => interactiveRoles.contains r
   | none => false) ||
  e.contenteditableTrue ||
  (e.tag == Tag.summary && c.inDetails) ||
  e.classes.contains "dropdown-toggle" ||
  e.classes.contains "accordion-header" ||
  e.classes.contains "carousel-control"

/-- Model of TabindexManager.shouldBeRemovedFromTabOrder: hidden itself,
hidden via an ancestor, or aria-hidden true on the node itself. -/
def shouldBeRemovedFromTabOrder (c : Ctx) (e : Elem) : Bool :=
  isVisuallyHiddenOwn e || c.parentHidden || e.ariaHidden

/-- Tags enumerated in the nonInteractiveWithTabindex selector list. -/
def isGenericContainerTag (e : Elem) : Bool :=
  e.tag == Tag.div || e.tag == Tag.span || e.tag == Tag.p ||
  e.tag == Tag.h1 || e.tag == Tag.h2 || e.tag == Tag.h3 ||
  e.tag == Tag.h4 || e.tag == Tag.h5 || e.tag == Tag.h6

/-- Model of TabindexManager.hasKeyboardEventListeners: only the inline
handler attributes are inspected. -/
def hasKeyboardEventListeners (e : Elem) : Bool :=
  e.onkeydownAttr || e.onkeyupAttr || e.onkeypressAttr

/-- Per-element action of fixNegativeTabindexValues: the pass selects
elements whose tabindex attribute is exactly the string -1 and rewrites it
to 0 when the element is interactive and not excluded. -/
def fixNegativeTabindexValuesElem (c : Ctx) (e : Elem) : Elem :=
  if e.tabindex = some (-1) ∧ isInteractiveElement c e = true ∧
      shouldBeRemovedFromTabOrder c e = false
  then { e with tabindex := some 0 } else e

/-- Per-element action of fixHighTabindexValues: any parsed tabindex value
strictly above 0 is rewritten to 0. -/
def fixHighTabindexValuesElem (_ : Ctx) (e : Elem) : Elem :=
  match e.tabindex with
  | some n => if 0 < n then { e with tabindex := some 0 } else e
  | none => e

/-- Per-element action of makeInteractiveElementsTabbable: interactive
elements that are not hidden (by themselves or an ancestor) and carry no
tabindex attribute receive tabindex 0. -/
def makeInteractiveElementsTabbableElem (c : Ctx) (e : Elem) : Elem :=
  if isInteractiveElement c e = true ∧
      (isVisuallyHiddenOwn e || c.parentHidden) = false ∧ e.tabindex = none
  then { e with tabindex := some 0 } else e

/-- Per-element action of validateNonInteractiveElements: a generic container
carrying a non-negative tabindex, with no role attribute and no inline
keyboard handler attribute, has the tabindex attribute removed. -/
def validateNonInteractiveElementsElem (_ : Ctx) (e : Elem) : Elem :=
  match e.tabindex with
  | some n =>
      if isGenericContainerTag e = true ∧ 0 ≤ n ∧ e.role = none ∧
          hasKeyboardEventListeners e = false
      then { e with tabindex := none } else e
  | none => e

/-- Model of element.matches over the tooltip trigger selector list of
setupTooltipAndDropdownHandlers. -/
def isTooltipTrigger (e : Elem) : Bool :=
  e.dataTooltip || e.dataToggle == some "tooltip" || e.ariaDescribedby ||
  e.role == some "tooltip" || e.classes.contains "tooltip-trigger"

/-- Model of element.matches over the dropdown trigger selector list of
setupTooltipAndDropdownHandlers; the child combinator selector for an anchor
under a has-dropdown parent reads the parent class context. -/
def isDropdownTrigger (c : Ctx) (e : Elem) : Bool :=
  e.classes.contains "dropdown-toggle" || e.dataToggle == some "dropdown" ||
  e.ariaHaspopupTrue || (c.parentHasDropdown && e.tag == Tag.a)

/-- Per-element attribute effect of the tooltip half of
setupTooltipAndDropdownHandlers: a trigger without tabindex receives
tabindex 0, and the keyboard-handled marker attribute is set. -/
def setupTooltipHandlersElem (_ : Ctx) (e : Elem) : Elem :=
  if isTooltipTrigger e = true then
    let e1 := if e.tabindex = none then { e with tabindex := some 0 } else e
    if e1.tooltipHandled = true then e1 else { e1 with tooltipHandled := true }
  else e

/-- Per-element attribute effect of the dropdown half of
setupTooltipAndDropdownHandlers. -/
def setupDropdownHandlersElem (c : Ctx) (e : Elem) : Elem :=
  if isDropdownTrigger c e = true then
    let e1 := if e.tabindex = none then { e with tabindex := some 0 } else e
    if e1.dropdownHandled = true then e1 else { e1 with dropdownHandled := true }
  else e

/-- One full pass over the proper descendants of the container, in document
order, as container.querySelectorAll delivers them. The container element
itself is not selected. -/
def applyPass (f : Ctx → Elem → Elem) (c : Ctx) (t : Tree) : Tree :=
  match t with
  | .node e cs => .node e (cs.map (fun s => s.mapWith f (childCtx c e)))

/-- Model of the synchronous attribute effects of TabindexManager.fix with
default options: the four normalizer passes, then the tabindex writes of
setupTooltipAndDropdownHandlers. The analyzeTabOrder call only logs and the
observer and listener registrations perform no synchronous attribute write. -/
def fix (c : Ctx) (t : Tree) : Tree :=
  applyPass setupDropdownHandlersElem c
    (applyPass setupTooltipHandlersElem c
      (applyPass validateNonInteractiveElementsElem c
        (applyPass makeInteractiveElementsTabbableElem c
          (applyPass fixHighTabindexValuesElem c
            (applyPass fixNegativeTabindexValuesElem c t)))))

/-- Model of TabindexManager.findTabbableElements: interactive descendants
whose tabindex (defaulted to 0 when absent) is non-negative and that are not
excluded from the tab order. -/
def findTabbableElements (c : Ctx) (t : Tree) : List Elem :=
  (t.descWith c).filterMap (fun q =>
    if isInteractiveElement q.1 q.2 = true ∧ 0 ≤ q.2.tabindex.getD 0 ∧
        shouldBeRemovedFromTabOrder q.1 q.2 = false
    then some q.2 else none)

def Tree.setRootElem (t : Tree) (e : Elem) : Tree :=
  match t with
  | .node _ cs => .node e cs

/-- Options object accepted by setupFocusTrap. -/
structure TrapOptions where
  returnFocusOnClose : Option Bool := none
  triggerElement : Option Elem := none

/-- Closure state captured by setupFocusTrap when a region is present: the
const bindings firstTabbable and lastTabbable, the tabbable list, the
previously focused element and the effective returnFocusOnClose flag. -/
structure ActiveTrap where
  first : Elem
  last : Elem
  tabbables : List Elem
  prior : Option Elem
  returnFocus : Bool
deriving DecidableEq, Repr

/-- Handle returned by setupFocusTrap: either the pair of empty closures
returned for a missing region, or the live closure state. -/
inductive TrapHandle where
  | noop
  | active : ActiveTrap → TrapHandle
deriving DecidableEq, Repr

/-- Result of one setupFocusTrap call: the possibly rewritten region (its
root may have received tabindex 0 and one keydown intercept), the initial
focus scheduled via setTimeout, and the handle. -/
structure TrapSetupResult where
  region : Option Tree
  scheduledFocus : Option Elem
  handle : TrapHandle

/-- Model of TabindexManager.setupFocusTrap. A missing region yields the
no-op handle. Otherwise the tabbable elements are computed; when none exist
the region itself receives tabindex 0 and becomes the sole member. One
keydown intercept is added to the region on every call, the first member is
scheduled for focus, and the closure state is returned. -/
def setupFocusTrap (c : Ctx) (region : Option Tree) (activeElement : Option Elem)
    (opts : TrapOptions) : TrapSetupResult :=
  match region with
  | none => ⟨none, none, .noop⟩
  | some t =>
      let returnFocus := decide (opts.returnFocusOnClose ≠ some false)
      let prior := match opts.triggerElement with
        | some g => some g
        | none => activeElement
      let found := findTabbableElements c t
      let t1 := if found = [] then
          t.setRootElem { t.rootElem with tabindex := some 0 } else t
      let tabbables := if found = [] then
          [{ t.rootElem with tabindex := some 0 }] else found
      let first := tabbables.headD default
      let last := tabbables.getLastD default
      let t2 := t1.setRootElem
        { t1.rootElem with keydownListeners := t1.rootElem.keydownListeners + 1 }
      ⟨some t2, some first, .active ⟨first, last, tabbables, prior, returnFocus⟩⟩

/-- Keyboard event delivered to the trap intercept. -/
structure KeyEvent where
  key : String
  shiftKey : Bool
deriving DecidableEq, Repr

/-- Observable outcome of one keydown intercept invocation. -/
structure KeyAction where
  preventDefault : Bool
  focusTarget : Option Elem
  clickClose : Option Elem
deriving DecidableEq, Repr

/-- Model of the close-control lookup in the Escape branch of the trap
intercept: the first descendant with an aria-label Close or a close or
btn-close class. -/
def findCloseButton (c : Ctx) (t : Tree) : Option Elem :=
  ((t.descWith c).filterMap (fun q =>
    if q.2.ariaLabelClose = true ∨ q.2.classes.contains "close" = true ∨
        q.2.classes.contains "btn-close" = true
    then some q.2 else none)).head?

/-- Model of the handleKeyDown closure installed by setupFocusTrap: Tab on
the last member wraps forward to the first, Shift Tab on the first wraps
back to the last, any other focus position is left to default handling;
Escape on a dialog-marked region activates a conventional close control. -/
def handleKeyDown (c : Ctx) (region : Tree) (h : ActiveTrap) (ev : KeyEvent)
    (active : Elem) : KeyAction :=
  let tabPart : KeyAction :=
    if ev.key = "Tab" then
      if ev.shiftKey = true then
        if active = h.first then ⟨true, some h.last, none⟩
        else ⟨false, none, none⟩
      else
        if active = h.last then ⟨true, some h.first, none⟩
        else ⟨false, none, none⟩
    else ⟨false, none, none⟩
  if ev.key = "Escape" ∧
      (region.rootElem.ariaModal ≠ none ∨ region.rootElem.role = some "dialog")
  then { tabPart with clickClose := findCloseButton c region }
  else tabPart

/-- Model of the remove closure of the trap handle: the no-op branch does
nothing; the live branch removes the keydown intercept and schedules focus
restoration to the prior element when returnFocusOnClose is in force. -/
def removeTrap (region : Tree) : TrapHandle → Tree × Option Elem
  | .noop => (region, none)
  | .active h =>
      (region.setRootElem
        { region.rootElem with
            keydownListeners := region.rootElem.keydownListeners - 1 },
       if h.returnFocus = true then h.prior else none)

/-- Model of the updateTabbableElements closure. The no-op branch returns
normally. In the live branch the fresh tabbable list is computed; when it is
non-empty the closure assigns the let binding tabbableElements and then
writes to the const binding firstTabbable, which raises a TypeError, so the
call never completes normally. -/
def updateTabbableElements (c : Ctx) (region : Tree) :
    TrapHandle → Except JSError TrapHandle
  | .noop => .ok .noop
  | .active h =>
      let updated := findTabbableElements c region
      if updated = [] then .ok (.active h) else .error .typeError

/-- Model of element.matches over the dialogSelectors list of
detectAndHandleDialogs. -/
def matchesDialogSelector (e : Elem) : Bool :=
  e.role == some "dialog" || e.role == some "alertdialog" ||
  (e.classes.contains "modal" && e.ariaModal == some "true") ||
  (e.classes.contains "dialog" && e.ariaModal == some "true")

/-- Arming of one discovered dialog by detectAndHandleDialogs: the
data-focus-trap-active attribute is set, then setupFocusTrap is called on
the dialog, whose attribute effects land on the dialog node itself. -/
def armTrap (c : Ctx) (t : Tree) : Tree :=
  let t0 := t.setRootElem { t.rootElem with trapFlag := true }
  match (setupFocusTrap c (some t0) none {}).region with
  | some t2 => t2
  | none => t0

mutual
/-- Recursive document-order walk of detectAndHandleDialogs over one
subtree: a visible dialog without the active marker is armed (its subtree is
read before its own attributes change, and arming touches only the dialog
node), then the children are processed. Arming changes no field read by
childCtx, so the original element supplies the child context. -/
def detectNode (c : Ctx) : Tree → Tree
  | .node e cs =>
      let e1 := if matchesDialogSelector e = true ∧ isVisuallyHiddenOwn e = false ∧
            e.trapFlag = false
        then (armTrap c (.node e cs)).rootElem else e
      .node e1 (detectNodeL (childCtx c e) cs)

def detectNodeL (c : Ctx) : List Tree → List Tree
  | [] => []
  | t :: ts => detectNode c t :: detectNodeL c ts
end

theorem detectNodeL_eq (c : Ctx) (cs : List Tree) :
    detectNodeL c cs = cs.map (fun t => detectNode c t) := by
  induction cs with
  | nil => rfl
  | cons t ts ih => rw [detectNodeL, ih, List.map_cons]

/-- Model of TabindexManager.detectAndHandleDialogs: the dialog search runs
over the proper descendants of the container. -/
def detectAndHandleDialogs (c : Ctx) (t : Tree) : Tree :=
  match t with
  | .node e cs => .node e (cs.map (fun s => detectNode (childCtx c e) s))

/-- Model of the synchronous attribute effects of
TabindexManager.processDynamicContent with default options: the four
normalizer passes followed by dialog discovery and arming. -/
def processDynamicContent (c : Ctx) (t : Tree) : Tree :=
  detectAndHandleDialogs c
    (applyPass validateNonInteractiveElementsElem c
      (applyPass makeInteractiveElementsTabbableElem c
        (applyPass fixHighTabindexValuesElem c
          (applyPass fixNegativeTabindexValuesElem c t))))

/-- Entry of the tabbableElements list built by analyzeTabOrder. -/
structure TabEntry where
  element : Elem
  tabindex : Int
deriving DecidableEq, Repr

/-- The comparator passed to Array.prototype.sort by analyzeTabOrder. -/
def compareEntries (a b : TabEntry) : Int :=
  if 0 < a.tabindex ∧ 0 < b.tabindex then a.tabindex - b.tabindex
  else if 0 < a.tabindex then -1
  else if 0 < b.tabindex then 1
  else 0

/-- Stable insertion step for the comparator order: an element is placed
before the first position whose entry does not compare strictly below it, so
entries comparing equal keep their original relative order. -/
def sortInsert (x : TabEntry) : List TabEntry → List TabEntry
  | [] => [x]
  | y :: ys => if compareEntries y x < 0 then y :: sortInsert x ys
               else x :: y :: ys

/-- Stable comparator sort, modelling Array.prototype.sort, which the
language specification requires to be stable. -/
def stableSort : List TabEntry → List TabEntry
  | [] => []
  | x :: xs => sortInsert x (stableSort xs)

/-- First collection loop of analyzeTabOrder: descendants carrying a
tabindex attribute whose parsed value is non-negative and that are not
excluded, in document order. -/
def explicitEntries (c : Ctx) (t : Tree) : List TabEntry :=
  (t.descWith c).filterMap (fun q =>
    match q.2.tabindex with
    | some n =>
        if 0 ≤ n ∧ shouldBeRemovedFromTabOrder q.1 q.2 = false
        then some ⟨q.2, n⟩ else none
    | none => none)

/-- Second collection loop of analyzeTabOrder: interactive descendants
without a tabindex attribute and not excluded, in document order, recorded
with order value 0. -/
def implicitEntries (c : Ctx) (t : Tree) : List TabEntry :=
  (t.descWith c).filterMap (fun q =>
    if isInteractiveElement q.1 q.2 = true ∧ q.2.tabindex = none ∧
        shouldBeRemovedFromTabOrder q.1 q.2 = false
    then some ⟨q.2, 0⟩ else none)

/-- Model of TabindexManager.analyzeTabOrder: both collection loops run, the
explicit entries first, then the combined list is sorted with the
comparator. The function only reports; it never mutates the tree. -/
def analyzeTabOrder (c : Ctx) (t : Tree) : List TabEntry :=
  stableSort (explicitEntries c t ++ implicitEntries c t)

/-- Action of fixNegativeTabindexValues on the tabindex value alone. -/
def fixNegativeTab (c : Ctx) (e : Elem) (x : Option Int) : Option Int :=
  if x = some (-1) ∧ isInteractiveElement c e = true ∧
      shouldBeRemovedFromTabOrder c e = false
  then some 0 else x

/-- Action of fixHighTabindexValues on the tabindex value alone. -/
def fixHighTab (x : Option Int) : Option Int :=
  if x ≠ none ∧ 0 < x.getD 0 then some 0 else x

/-- Action of makeInteractiveElementsTabbable on the tabindex value alone. -/
def makeTabbableTab (c : Ctx) (e : Elem) (x : Option Int) : Option Int :=
  if isInteractiveElement c e = true ∧
      (isVisuallyHiddenOwn e || c.parentHidden) = false ∧ x = none
  then some 0 else x

/-- Action of validateNonInteractiveElements on the tabindex value alone. -/
def validateTab (e : Elem) (x : Option Int) : Option Int :=
  if x ≠ none ∧ isGenericContainerTag e = true ∧ 0 ≤ x.getD 0 ∧ e.role = none ∧
      hasKeyboardEventListeners e = false
  then none else x

/-- Action of the tooltip trigger loop on the tabindex value alone. -/
def tooltipTab (e : Elem) (x : Option Int) : Option Int :=
  if isTooltipTrigger e = true ∧ x = none then some 0 else x

/-- Action of the dropdown trigger loop on the tabindex value alone. -/
def dropdownTab (c : Ctx) (e : Elem) (x : Option Int) : Option Int :=
  if isDropdownTrigger c e = true ∧ x = none then some 0 else x

theorem fixNegativeTabindexValuesElem_char (c : Ctx) (e : Elem) :
    fixNegativeTabindexValuesElem c e =
      { e with tabindex := fixNegativeTab c e e.tabindex } := by
  unfold fixNegativeTabindexValuesElem fixNegativeTab
  split_ifs <;> rfl

theorem fixHighTabindexValuesElem_char (c : Ctx) (e : Elem) :
    fixHighTabindexValuesElem c e = { e with tabindex := fixHighTab e.tabindex } := by
  unfold fixHighTabindexValuesElem fixHighTab
  rcases h : e.tabindex with _ | n
  · simp only [h]
    simp only [ne_eq, not_true_eq_false, false_and, if_false]
    conv_rhs => rw [← h]
  · simp only [h]
    simp only [ne_eq, Option.getD_some, reduceCtorEq, not_false_eq_true, true_and]
    split_ifs
    · rfl
    · conv_rhs => rw [← h]

theorem makeInteractiveElementsTabbableElem_char (c : Ctx) (e : Elem) :
    makeInteractiveElementsTabbableElem c e =
      { e with tabindex := makeTabbableTab c e e.tabindex } := by
  unfold makeInteractiveElementsTabbableElem makeTabbableTab
  split_ifs <;> rfl

theorem validateNonInteractiveElementsElem_char (c : Ctx) (e : Elem) :
    validateNonInteractiveElementsElem c e =
      { e with tabindex := validateTab e e.tabindex } := by
  unfold validateNonInteractiveElementsElem validateTab
  rcases h : e.tabindex with _ | n
  · simp only [h]
    simp only [ne_eq, not_true_eq_false, false_and, if_false]
    conv_rhs => rw [← h]
  · simp only [h]
    simp only [ne_eq, Option.getD_some, reduceCtorEq, not_false_eq_true, true_and]
    split_ifs
    · rfl
    · conv_rhs => rw [← h]

theorem setupTooltipHandlersElem_char (c : Ctx) (e : Elem) :
    setupTooltipHandlersElem c e =
      { e with tabindex := tooltipTab e e.tabindex,
               tooltipHandled := e.tooltipHandled || isTooltipTrigger e } := by
  unfold setupTooltipHandlersElem tooltipTab
  by_cases ht : isTooltipTrigger e = true
  · simp only [ht, if_true, true_and, Bool.or_true]
    by_cases hx : e.tabindex = none
    · simp only [hx, if_true]
      by_cases hh : e.tooltipHandled = true <;> simp [hh]
    · simp only [hx, if_false]
      by_cases hh : e.tooltipHandled = true
      · simp only [hh, if_true]
        rw [← hh]
      · simp [hh]
  · have ht2 : isTooltipTrigger e = false := by
      revert ht
      cases isTooltipTrigger e <;> simp
    simp only [ht2, Bool.false_eq_true, false_and, if_false, Bool.or_false]

theorem setupDropdownHandlersElem_char (c : Ctx) (e : Elem) :
    setupDropdownHandlersElem c e =
      { e with tabindex := dropdownTab c e e.tabindex,
               dropdownHandled := e.dropdownHandled || isDropdownTrigger c e } := by
  unfold setupDropdownHandlersElem dropdownTab
  by_cases ht : isDropdownTrigger c e = true
  · simp only [ht, if_true, true_and, Bool.or_true]
    by_cases hx : e.tabindex = none
    · simp only [hx, if_true]
      by_cases hh : e.dropdownHandled = true <;> simp [hh]
    · simp only [hx, if_false]
      by_cases hh : e.dropdownHandled = true
      · simp only [hh, if_true]
        rw [← hh]
      · simp [hh]
  · have ht2 : isDropdownTrigger c e = false := by
      revert ht
      cases isDropdownTrigger c e <;> simp
    simp only [ht2, Bool.false_eq_true, false_and, if_false, Bool.or_false]

/-- Composite per-element action of the four normalizer passes, in the order
in which fix and processDynamicContent run them. -/
def scanElem (c : Ctx) (e : Elem) : Elem :=
  validateNonInteractiveElementsElem c
    (makeInteractiveElementsTabbableElem c
      (fixHighTabindexValuesElem c (fixNegativeTabindexValuesElem c e)))

/-- Composite action of the four normalizer passes on the tabindex value. -/
def scanTab (c : Ctx) (e : Elem) (x : Option Int) : Option Int :=
  validateTab e (makeTabbableTab c e (fixHighTab (fixNegativeTab c e x)))

theorem scanElem_char (c : Ctx) (e : Elem) :
    scanElem c e = { e with tabindex := scanTab c e e.tabindex } := by
  unfold scanElem scanTab
  rw [fixNegativeTabindexValuesElem_char, fixHighTabindexValuesElem_char,
    makeInteractiveElementsTabbableElem_char,
    validateNonInteractiveElementsElem_char]
  rfl

/-- Composite per-element action of fix: the four normalizer passes followed
by the tooltip and dropdown trigger loops. -/
def fixElem (c : Ctx) (e : Elem) : Elem :=
  setupDropdownHandlersElem c (setupTooltipHandlersElem c (scanElem c e))

/-- Composite action of fix on the tabindex value. -/
def fixTab (c : Ctx) (e : Elem) (x : Option Int) : Option Int :=
  dropdownTab c e (tooltipTab e (scanTab c e x))

theorem fixElem_char (c : Ctx) (e : Elem) :
    fixElem c e =
      { e with tabindex := fixTab c e e.tabindex,
               tooltipHandled := e.tooltipHandled || isTooltipTrigger e,
               dropdownHandled := e.dropdownHandled || isDropdownTrigger c e } := by
  unfold fixElem fixTab
  rw [scanElem_char, setupTooltipHandlersElem_char, setupDropdownHandlersElem_char]
  rfl

/-- Finite classification of a tabindex attribute value: absent, exactly -1,
another negative value, zero, or positive. Every pass of the normalizer is
determined, up to keeping or replacing the value, by this class and the
static element predicates. -/
inductive TabClass where
  | absent | negOne | negOther | zero | pos
deriving DecidableEq, Repr, Fintype

def clsOf : Option Int → TabClass
  | none => .absent
  | some n =>
      if n = -1 then .negOne
      else if n < 0 then .negOther
      else if n = 0 then .zero
      else .pos

/-- Symbolic effect of one pass on a tabindex value: keep it, replace it by
zero, or remove it. -/
inductive SymVal where
  | keep | zero | gone
deriving DecidableEq, Repr, Fintype

def symSem : SymVal → Option Int → Option Int
  | .keep, x => x
  | .zero, _ => some 0
  | .gone, _ => none

def clsAfter : SymVal → TabClass → TabClass
  | .keep, k => k
  | .zero, _ => .zero
  | .gone, _ => .absent

def symComp (s2 s1 : SymVal) : SymVal :=
  match s2 with
  | .keep => s1
  | .zero => .zero
  | .gone => .gone

theorem symSem_comp (s2 s1 : SymVal) (x : Option Int) :
    symSem s2 (symSem s1 x) = symSem (symComp s2 s1) x := by
  cases s2 <;> cases s1 <;> rfl

theorem clsOf_symSem (s : SymVal) (x : Option Int) :
    clsOf (symSem s x) = clsAfter s (clsOf x) := by
  cases s <;> rfl

theorem clsAfter_symComp (s2 s1 : SymVal) (k : TabClass) :
    clsAfter (symComp s2 s1) k = clsAfter s2 (clsAfter s1 k) := by
  cases s2 <;> cases s1 <;> rfl

theorem clsOf_some_negOne (n : Int) : clsOf (some n) = .negOne ↔ n = -1 := by
  simp only [clsOf]
  split_ifs <;> simp_all

theorem clsOf_some_pos (n : Int) : clsOf (some n) = .pos ↔ 0 < n := by
  simp only [clsOf]
  split_ifs <;> simp_all <;> omega

theorem clsOf_some_nonneg (n : Int) :
    (clsOf (some n) = .zero ∨ clsOf (some n) = .pos) ↔ 0 ≤ n := by
  simp only [clsOf]
  split_ifs <;> simp_all <;> omega

theorem clsOf_some_ne_absent (n : Int) : clsOf (some n) ≠ .absent := by
  simp only [clsOf]
  split_ifs <;> simp_all

/-- Symbolic action of fixNegativeTabindexValues. -/
def negS (bI bX : Bool) (k : TabClass) : SymVal :=
  if k = .negOne ∧ bI = true ∧ bX = false then .zero else .keep

/-- Symbolic action of fixHighTabindexValues. -/
def highS (k : TabClass) : SymVal :=
  if k = .pos then .zero else .keep

/-- Symbolic action of makeInteractiveElementsTabbable. -/
def makeS (bI bH : Bool) (k : TabClass) : SymVal :=
  if bI = true ∧ bH = false ∧ k = .absent then .zero else .keep

/-- Symbolic action of validateNonInteractiveElements. -/
def valS (bN bR bK : Bool) (k : TabClass) : SymVal :=
  if (k = .zero ∨ k = .pos) ∧ bN = true ∧ bR = true ∧ bK = false
  then .gone else .keep

/-- Symbolic action of one trigger loop of setupTooltipAndDropdownHandlers. -/
def trigS (bT : Bool) (k : TabClass) : SymVal :=
  if bT = true ∧ k = .absent then .zero else .keep

theorem fixNegativeTab_sim (c : Ctx) (e : Elem) (x : Option Int) :
    fixNegativeTab c e x =
      symSem (negS (isInteractiveElement c e) (shouldBeRemovedFromTabOrder c e)
        (clsOf x)) x := by
  unfold fixNegativeTab negS
  rcases x with _ | n
  · simp [symSem, clsOf]
  · by_cases hn : n = -1
    · subst hn
      simp only [clsOf_some_negOne]
      split_ifs <;> simp_all [symSem]
    · have : clsOf (some n) ≠ .negOne := by simp [clsOf_some_negOne, hn]
      simp_all [symSem]

theorem fixHighTab_sim (x : Option Int) :
    fixHighTab x = symSem (highS (clsOf x)) x := by
  unfold fixHighTab highS
  rcases x with _ | n
  · simp [symSem, clsOf]
  · simp only [ne_eq, reduceCtorEq, not_false_eq_true, Option.getD_some, true_and,
      clsOf_some_pos]
    split_ifs <;> simp_all [symSem]

theorem makeTabbableTab_sim (c : Ctx) (e : Elem) (x : Option Int) :
    makeTabbableTab c e x =
      symSem (makeS (isInteractiveElement c e)
        (isVisuallyHiddenOwn e || c.parentHidden) (clsOf x)) x := by
  unfold makeTabbableTab makeS
  rcases x with _ | n
  · simp only [clsOf]
    split_ifs <;> simp_all [symSem]
  · have := clsOf_some_ne_absent n
    simp_all [symSem]

theorem validateTab_sim (e : Elem) (x : Option Int) :
    validateTab e x =
      symSem (valS (isGenericContainerTag e) (decide (e.role = none))
        (hasKeyboardEventListeners e) (clsOf x)) x := by
  unfold validateTab valS
  rcases x with _ | n
  · simp [symSem, clsOf]
  · simp only [ne_eq, reduceCtorEq, not_false_eq_true, Option.getD_some, true_and,
      clsOf_some_nonneg, decide_eq_true_eq]
    split_ifs <;> simp_all [symSem] <;> tauto

theorem tooltipTab_sim (e : Elem) (x : Option Int) :
    tooltipTab e x = symSem (trigS (isTooltipTrigger e) (clsOf x)) x := by
  unfold tooltipTab trigS
  rcases x with _ | n
  · simp only [clsOf]
    split_ifs <;> simp_all [symSem]
  · have := clsOf_some_ne_absent n
    simp_all [symSem]

theorem dropdownTab_sim (c : Ctx) (e : Elem) (x : Option Int) :
    dropdownTab c e x = symSem (trigS (isDropdownTrigger c e) (clsOf x)) x := by
  unfold dropdownTab trigS
  rcases x with _ | n
  · simp only [clsOf]
    split_ifs <;> simp_all [symSem]
  · have := clsOf_some_ne_absent n
    simp_all [symSem]

/-- Symbolic composite of the four normalizer passes. -/
def scanS (bI bX bH bN bR bK : Bool) (k : TabClass) : SymVal :=
  let s1 := negS bI bX k
  let k1 := clsAfter s1 k
  let s2 := highS k1
  let k2 := clsAfter s2 k1
  let s3 := makeS bI bH k2
  let k3 := clsAfter s3 k2
  let s4 := valS bN bR bK k3
  symComp s4 (symComp s3 (symComp s2 s1))

/-- Symbolic composite of fix: the normalizer passes and both trigger loops. -/
def fixS (bI bX bH bN bR bK bT bD : Bool) (k : TabClass) : SymVal :=
  let s1 := scanS bI bX bH bN bR bK k
  let k1 := clsAfter s1 k
  let s2 := trigS bT k1
  let k2 := clsAfter s2 k1
  let s3 := trigS bD k2
  symComp s3 (symComp s2 s1)

/-- Static predicate vector attached to an element inside a context. -/
def scanStat (c : Ctx) (e : Elem) : Bool × Bool × Bool × Bool × Bool × Bool :=
  (isInteractiveElement c e, shouldBeRemovedFromTabOrder c e,
   isVisuallyHiddenOwn e || c.parentHidden, isGenericContainerTag e,
   decide (e.role = none), hasKeyboardEventListeners e)

theorem scanTab_sim (c : Ctx) (e : Elem) (x : Option Int) :
    scanTab c e x =
      symSem (scanS (isInteractiveElement c e) (shouldBeRemovedFromTabOrder c e)
        (isVisuallyHiddenOwn e || c.parentHidden) (isGenericContainerTag e)
        (decide (e.role = none)) (hasKeyboardEventListeners e) (clsOf x)) x := by
  unfold scanTab
  rw [fixNegativeTab_sim, fixHighTab_sim, clsOf_symSem, symSem_comp,
    makeTabbableTab_sim, clsOf_symSem, symSem_comp,
    validateTab_sim, clsOf_symSem, symSem_comp]
  simp only [clsAfter_symComp]
  rfl

theorem fixTab_sim (c : Ctx) (e : Elem) (x : Option Int) :
    fixTab c e x =
      symSem (fixS (isInteractiveElement c e) (shouldBeRemovedFromTabOrder c e)
        (isVisuallyHiddenOwn e || c.parentHidden) (isGenericContainerTag e)
        (decide (e.role = none)) (hasKeyboardEventListeners e)
        (isTooltipTrigger e) (isDropdownTrigger c e) (clsOf x)) x := by
  unfold fixTab
  rw [scanTab_sim, tooltipTab_sim, clsOf_symSem, symSem_comp,
    dropdownTab_sim, clsOf_symSem, symSem_comp]
  simp only [clsAfter_symComp]
  rfl

theorem scanS_idem (bI bX bH bN bR bK : Bool) (k : TabClass) :
    symComp (scanS bI bX bH bN bR bK (clsAfter (scanS bI bX bH bN bR bK k) k))
      (scanS bI bX bH bN bR bK k) = scanS bI bX bH bN bR bK k := by
  revert bI bX bH bN bR bK k
  decide

theorem fixS_idem (bI bX bH bN bR bK bT bD : Bool) (k : TabClass) :
    symComp
      (fixS bI bX bH bN bR bK bT bD (clsAfter (fixS bI bX bH bN bR bK bT bD k) k))
      (fixS bI bX bH bN bR bK bT bD k) = fixS bI bX bH bN bR bK bT bD k := by
  revert bI bX bH bN bR bK bT bD k
  decide

theorem scanTab_idem (c : Ctx) (e : Elem) (x : Option Int) :
    scanTab c e (scanTab c e x) = scanTab c e x := by
  rw [scanTab_sim (x := x), scanTab_sim, clsOf_symSem, symSem_comp, scanS_idem]

theorem fixTab_idem (c : Ctx) (e : Elem) (x : Option Int) :
    fixTab c e (fixTab c e x) = fixTab c e x := by
  rw [fixTab_sim (x := x), fixTab_sim, clsOf_symSem, symSem_comp, fixS_idem]

theorem scanTab_update (c : Ctx) (e : Elem) (y z : Option Int) :
    scanTab c { e with tabindex := y } z = scanTab c e z := rfl

theorem fixTab_update (c : Ctx) (e : Elem) (y : Option Int) (b1 b2 : Bool)
    (z : Option Int) :
    fixTab c { e with tabindex := y, tooltipHandled := b1,
                      dropdownHandled := b2 } z = fixTab c e z := rfl

theorem isTooltipTrigger_update (e : Elem) (y : Option Int) (b1 b2 : Bool) :
    isTooltipTrigger { e with tabindex := y, tooltipHandled := b1,
                              dropdownHandled := b2 } = isTooltipTrigger e := rfl

theorem isDropdownTrigger_update (c : Ctx) (e : Elem) (y : Option Int)
    (b1 b2 : Bool) :
    isDropdownTrigger c { e with tabindex := y, tooltipHandled := b1,
                                 dropdownHandled := b2 } = isDropdownTrigger c e := rfl

theorem scanElem_idem (c : Ctx) (e : Elem) :
    scanElem c (scanElem c e) = scanElem c e := by
  rw [scanElem_char, scanElem_char]
  simp only [scanTab_update]
  rw [scanTab_idem]

theorem fixElem_idem (c : Ctx) (e : Elem) :
    fixElem c (fixElem c e) = fixElem c e := by
  rw [fixElem_char, fixElem_char]
  simp only [fixTab_update, isTooltipTrigger_update, isDropdownTrigger_update]
  rw [fixTab_idem]
  simp [Bool.or_assoc]

theorem childCtx_scanElem (c c2 : Ctx) (e : Elem) :
    childCtx c (scanElem c2 e) = childCtx c e := by
  rw [scanElem_char]
  rfl

theorem childCtx_fixElem (c c2 : Ctx) (e : Elem) :
    childCtx c (fixElem c2 e) = childCtx c e := by
  rw [fixElem_char]
  rfl

theorem Tree.mapWith_congr (f g : Ctx → Elem → Elem)
    (h : ∀ c e, f c e = g c e) (c : Ctx) (t : Tree) :
    t.mapWith f c = t.mapWith g c := by
  induction t using Tree.ind generalizing c with
  | _ e cs ih =>
      rw [Tree.mapWith_node, Tree.mapWith_node, h]
      congr 1
      exact List.map_congr_left (fun s hs => ih s hs _)

theorem Tree.mapWith_mapWith (f g : Ctx → Elem → Elem)
    (hg : ∀ c e, childCtx c (g c e) = childCtx c e) (c : Ctx) (t : Tree) :
    (t.mapWith g c).mapWith f c = t.mapWith (fun c2 e => f c2 (g c2 e)) c := by
  induction t using Tree.ind generalizing c with
  | _ e cs ih =>
      rw [Tree.mapWith_node, Tree.mapWith_node, Tree.mapWith_node, hg,
        List.map_map]
      congr 1
      exact List.map_congr_left (fun s hs => ih s hs _)

theorem applyPass_applyPass (f g : Ctx → Elem → Elem)
    (hg : ∀ c e, childCtx c (g c e) = childCtx c e) (c : Ctx) (t : Tree) :
    applyPass f c (applyPass g c t) =
      applyPass (fun c2 e => f c2 (g c2 e)) c t := by
  rcases t with ⟨e, cs⟩
  simp only [applyPass, List.map_map]
  congr 1
  exact List.map_congr_left
    (fun s _ => Tree.mapWith_mapWith f g hg (childCtx c e) s)

theorem childCtx_chain2 (g1 g2 : Ctx → Elem → Elem)
    (h1 : ∀ c e, childCtx c (g1 c e) = childCtx c e)
    (h2 : ∀ c e, childCtx c (g2 c e) = childCtx c e) :
    ∀ c e, childCtx c (g2 c (g1 c e)) = childCtx c e := by
  intro c e
  rw [h2, h1]

theorem childCtx_passes :
    (∀ c e, childCtx c (fixNegativeTabindexValuesElem c e) = childCtx c e) ∧
    (∀ c e, childCtx c (fixHighTabindexValuesElem c e) = childCtx c e) ∧
    (∀ c e, childCtx c (makeInteractiveElementsTabbableElem c e) = childCtx c e) ∧
    (∀ c e, childCtx c (validateNonInteractiveElementsElem c e) = childCtx c e) ∧
    (∀ c e, childCtx c (setupTooltipHandlersElem c e) = childCtx c e) ∧
    (∀ c e, childCtx c (setupDropdownHandlersElem c e) = childCtx c e) := by
  refine ⟨?_, ?_, ?_, ?_, ?_, ?_⟩ <;> intro c e
  · rw [fixNegativeTabindexValuesElem_char]
    rfl
  · rw [fixHighTabindexValuesElem_char]
    rfl
  · rw [makeInteractiveElementsTabbableElem_char]
    rfl
  · rw [validateNonInteractiveElementsElem_char]
    rfl
  · rw [setupTooltipHandlersElem_char]
    rfl
  · rw [setupDropdownHandlersElem_char]
    rfl

theorem fix_eq_applyPass (c : Ctx) (t : Tree) :
    fix c t = applyPass fixElem c t := by
  obtain ⟨h1, h2, h3, h4, h5, h6⟩ := childCtx_passes
  unfold fix
  rw [applyPass_applyPass _ _ h1, applyPass_applyPass _ _ (childCtx_chain2 _ _ h1 h2),
    applyPass_applyPass _ _ (childCtx_chain2 _ _ (childCtx_chain2 _ _ h1 h2) h3),
    applyPass_applyPass _ _
      (childCtx_chain2 _ _ (childCtx_chain2 _ _ (childCtx_chain2 _ _ h1 h2) h3) h4),
    applyPass_applyPass _ _
      (childCtx_chain2 _ _
        (childCtx_chain2 _ _ (childCtx_chain2 _ _ (childCtx_chain2 _ _ h1 h2) h3) h4) h5)]
  rfl

theorem scanPasses_eq_applyPass (c : Ctx) (t : Tree) :
    applyPass validateNonInteractiveElementsElem c
      (applyPass makeInteractiveElementsTabbableElem c
        (applyPass fixHighTabindexValuesElem c
          (applyPass fixNegativeTabindexValuesElem c t))) =
      applyPass scanElem c t := by
  obtain ⟨h1, h2, h3, h4, _, _⟩ := childCtx_passes
  rw [applyPass_applyPass _ _ h1, applyPass_applyPass _ _ (childCtx_chain2 _ _ h1 h2),
    applyPass_applyPass _ _ (childCtx_chain2 _ _ (childCtx_chain2 _ _ h1 h2) h3)]
  rfl

theorem fix_idem (c : Ctx) (t : Tree) : fix c (fix c t) = fix c t := by
  rw [fix_eq_applyPass, fix_eq_applyPass,
    applyPass_applyPass _ _ (fun c2 e => childCtx_fixElem c2 c2 e)]
  rcases t with ⟨e, cs⟩
  simp only [applyPass]
  congr 1
  exact List.map_congr_left (fun s _ =>
    Tree.mapWith_congr _ _ (fun c2 e2 => fixElem_idem c2 e2) _ s)

theorem Tree.mem_nodesWith_child (c : Ctx) (e : Elem) (cs : List Tree)
    (s : Tree) (hs : s ∈ cs) (p : Ctx × Elem)
    (hp : p ∈ s.nodesWith (childCtx c e)) :
    p ∈ (Tree.node e cs).nodesWith c := by
  rw [Tree.nodesWith_node]
  refine List.mem_cons.mpr (Or.inr ?_)
  exact List.mem_flatten.mpr
    ⟨s.nodesWith (childCtx c e), List.mem_map_of_mem _ hs, hp⟩

theorem Tree.mem_nodesWith_self (c : Ctx) (e : Elem) (cs : List Tree) :
    (c, e) ∈ (Tree.node e cs).nodesWith c := by
  rw [Tree.nodesWith_node]
  exact List.mem_cons_self _ _

theorem Tree.mapWith_eq_self (f : Ctx → Elem → Elem) (c : Ctx) (t : Tree)
    (h : ∀ p ∈ t.nodesWith c, f p.1 p.2 = p.2) : t.mapWith f c = t := by
  induction t using Tree.ind generalizing c with
  | _ e cs ih =>
      rw [Tree.mapWith_node]
      have hroot : f c e = e := h (c, e) (Tree.mem_nodesWith_self c e cs)
      have hchild : ∀ s ∈ cs, s.mapWith f (childCtx c e) = s := fun s hs =>
        ih s hs (childCtx c e)
          (fun p hp => h p (Tree.mem_nodesWith_child c e cs s hs p hp))
      rw [hroot]
      congr 1
      calc cs.map (fun s => s.mapWith f (childCtx c e))
          = cs.map id := List.map_congr_left (fun s hs => hchild s hs)
        _ = cs := List.map_id cs

theorem Tree.nodesWith_mapWith (f : Ctx → Elem → Elem)
    (hf : ∀ c e, childCtx c (f c e) = childCtx c e) (c : Ctx) (t : Tree) :
    (t.mapWith f c).nodesWith c =
      (t.nodesWith c).map (fun p => (p.1, f p.1 p.2)) := by
  induction t using Tree.ind generalizing c with
  | _ e cs ih =>
      rw [Tree.mapWith_node, Tree.nodesWith_node, Tree.nodesWith_node, hf,
        List.map_map, List.map_cons, List.map_flatten, List.map_map]
      congr 2
      exact List.map_congr_left (fun s hs => ih s hs (childCtx c e))

theorem Tree.descWith_applyPass (f : Ctx → Elem → Elem)
    (hf : ∀ c e, childCtx c (f c e) = childCtx c e) (c : Ctx) (t : Tree) :
    Tree.descWith c (applyPass f c t) =
      (Tree.descWith c t).map (fun p => (p.1, f p.1 p.2)) := by
  rcases t with ⟨e, cs⟩
  simp only [applyPass, Tree.descWith, List.map_map, List.map_flatten]
  congr 1
  exact List.map_congr_left
    (fun s _ => Tree.nodesWith_mapWith f hf (childCtx c e) s)

theorem applyPass_eq_self (f : Ctx → Elem → Elem) (c : Ctx) (t : Tree)
    (h : ∀ p ∈ Tree.descWith c t, f p.1 p.2 = p.2) : applyPass f c t = t := by
  rcases t with ⟨e, cs⟩
  simp only [applyPass]
  congr 1
  calc cs.map (fun s => s.mapWith f (childCtx c e))
      = cs.map id := by
        refine List.map_congr_left (fun s hs => ?_)
        refine Tree.mapWith_eq_self f (childCtx c e) s (fun p hp => h p ?_)
        simp only [Tree.descWith]
        exact List.mem_flatten.mpr
          ⟨s.nodesWith (childCtx c e), List.mem_map_of_mem _ hs, hp⟩
    _ = cs := List.map_id cs

theorem scanTab_update_arm (c : Ctx) (e : Elem) (b : Bool) (k : Nat)
    (z : Option Int) :
    scanTab c { e with trapFlag := b, keydownListeners := k } z =
      scanTab c e z := rfl

theorem scanTab_update_arm2 (c : Ctx) (e : Elem) (b : Bool) (y : Option Int)
    (k : Nat) (z : Option Int) :
    scanTab c { e with trapFlag := b, tabindex := y, keydownListeners := k } z =
      scanTab c e z := rfl

theorem scanElem_fix_iff (c : Ctx) (e : Elem) :
    scanElem c e = e ↔ scanTab c e e.tabindex = e.tabindex := by
  constructor
  · intro h
    have := congrArg Elem.tabindex h
    rw [scanElem_char] at this
    exact this
  · intro h
    rw [scanElem_char, h]

/-- Elements whose stray tabindex the validate pass would strip although the
dialog discovery arms them as their own boundary: a dialog-selector match on
a generic container with no role attribute and no inline keyboard handler. -/
def badDialog (e : Elem) : Bool :=
  matchesDialogSelector e && isGenericContainerTag e && decide (e.role = none)
    && !hasKeyboardEventListeners e

theorem scanS_zero_keep (bI bX bH bN bR bK : Bool)
    (h : ¬(bN = true ∧ bR = true ∧ bK = false)) :
    scanS bI bX bH bN bR bK .zero = .keep := by
  revert h
  revert bI bX bH bN bR bK
  decide

theorem scanTab_zero_of_not_bad (c : Ctx) (e : Elem)
    (h : ¬(isGenericContainerTag e = true ∧ e.role = none ∧
      hasKeyboardEventListeners e = false)) :
    scanTab c e (some 0) = some 0 := by
  rw [scanTab_sim]
  have hz : clsOf (some (0 : Int)) = .zero := rfl
  rw [hz, scanS_zero_keep]
  · rfl
  · intro hcon
    exact h ⟨hcon.1, of_decide_eq_true hcon.2.1, hcon.2.2⟩

/-- The element state of a dialog node after detectAndHandleDialogs armed it:
the active marker is set, a keydown intercept is installed, and when the
dialog had no tabbable descendant its own tabindex becomes 0. -/
def armedElem (c : Ctx) (e : Elem) (cs : List Tree) : Elem :=
  if findTabbableElements c (.node e cs) = []
  then { e with trapFlag := true, tabindex := some 0,
                keydownListeners := e.keydownListeners + 1 }
  else { e with trapFlag := true,
                keydownListeners := e.keydownListeners + 1 }

theorem findTabbable_trapFlag (c : Ctx) (e : Elem) (cs : List Tree) :
    findTabbableElements c (.node { e with trapFlag := true } cs) =
      findTabbableElements c (.node e cs) := rfl

theorem armTrap_eq (c : Ctx) (e : Elem) (cs : List Tree) :
    armTrap c (.node e cs) = .node (armedElem c e cs) cs := by
  unfold armTrap setupFocusTrap
  simp only [Tree.setRootElem, Tree.rootElem, findTabbable_trapFlag]
  by_cases hf : findTabbableElements c (.node e cs) = [] <;>
    simp only [hf, if_true, if_false, armedElem] <;> rfl

theorem childCtx_armedElem (c2 c : Ctx) (e : Elem) (cs : List Tree) :
    childCtx c2 (armedElem c e cs) = childCtx c2 e := by
  unfold armedElem
  split_ifs <;> rfl

theorem armedElem_trapFlag (c : Ctx) (e : Elem) (cs : List Tree) :
    (armedElem c e cs).trapFlag = true := by
  unfold armedElem
  split_ifs <;> rfl

theorem detectNode_node (c : Ctx) (e : Elem) (cs : List Tree) :
    detectNode c (.node e cs) =
      .node
        (if matchesDialogSelector e = true ∧ isVisuallyHiddenOwn e = false ∧
            e.trapFlag = false
         then armedElem c e cs else e)
        (cs.map (fun s => detectNode (childCtx c e) s)) := by
  rw [detectNode, detectNodeL_eq]
  congr 1
  split_ifs
  · rw [armTrap_eq]
    rfl
  · rfl

theorem detectAndHandleDialogs_node (c : Ctx) (e : Elem) (cs : List Tree) :
    detectAndHandleDialogs c (.node e cs) =
      .node e (cs.map (fun s => detectNode (childCtx c e) s)) := rfl

theorem childCtx_detectRoot (c2 c : Ctx) (e : Elem) (cs : List Tree) :
    childCtx c2
      (if matchesDialogSelector e = true ∧ isVisuallyHiddenOwn e = false ∧
          e.trapFlag = false
       then armedElem c e cs else e) = childCtx c2 e := by
  split_ifs
  · exact childCtx_armedElem c2 c e cs
  · rfl

theorem scanElem_armedElem (c : Ctx) (e : Elem) (cs : List Tree)
    (hfix : scanElem c e = e) (hbad : badDialog e = false)
    (hdlg : matchesDialogSelector e = true) :
    scanElem c (armedElem c e cs) = armedElem c e cs := by
  have hnb : ¬(isGenericContainerTag e = true ∧ e.role = none ∧
      hasKeyboardEventListeners e = false) := by
    intro hcon
    unfold badDialog at hbad
    rw [hdlg, hcon.1] at hbad
    simp only [Bool.true_and] at hbad
    rcases hcon with ⟨-, h2, h3⟩
    rw [decide_eq_true h2, h3] at hbad
    simp at hbad
  unfold armedElem
  split_ifs with hf
  · rw [scanElem_fix_iff]
    rw [scanTab_update_arm2]
    exact scanTab_zero_of_not_bad c e hnb
  · rw [scanElem_fix_iff]
    rw [scanTab_update_arm]
    exact (scanElem_fix_iff c e).mp hfix

theorem badDialog_scanElem (c : Ctx) (e : Elem) :
    badDialog (scanElem c e) = badDialog e := by
  rw [scanElem_char]
  rfl

theorem detectNode_scanFixed (c : Ctx) (t : Tree)
    (hfix : ∀ p ∈ t.nodesWith c, scanElem p.1 p.2 = p.2)
    (hbad : ∀ p ∈ t.nodesWith c, badDialog p.2 = false) :
    ∀ p ∈ (detectNode c t).nodesWith c, scanElem p.1 p.2 = p.2 := by
  induction t using Tree.ind generalizing c with
  | _ e cs ih =>
      intro p hp
      rw [detectNode_node, Tree.nodesWith_node, childCtx_detectRoot] at hp
      rcases List.mem_cons.mp hp with hroot | hrest
      · subst hroot
        simp only
        split_ifs with harm
        · exact scanElem_armedElem c e cs
            (hfix (c, e) (Tree.mem_nodesWith_self c e cs))
            (hbad (c, e) (Tree.mem_nodesWith_self c e cs)) harm.1
        · exact hfix (c, e) (Tree.mem_nodesWith_self c e cs)
      · rw [List.map_map] at hrest
        obtain ⟨l, hl, hpl⟩ := List.mem_flatten.mp hrest
        obtain ⟨s, hs, rfl⟩ := List.mem_map.mp hl
        exact ih s hs (childCtx c e)
          (fun q hq => hfix q (Tree.mem_nodesWith_child c e cs s hs q hq))
          (fun q hq => hbad q (Tree.mem_nodesWith_child c e cs s hs q hq))
          p hpl

theorem detectNode_flagged (c : Ctx) (t : Tree) :
    ∀ p ∈ (detectNode c t).nodesWith c,
      matchesDialogSelector p.2 = true → isVisuallyHiddenOwn p.2 = false →
        p.2.trapFlag = true := by
  induction t using Tree.ind generalizing c with
  | _ e cs ih =>
      intro p hp
      rw [detectNode_node, Tree.nodesWith_node, childCtx_detectRoot] at hp
      rcases List.mem_cons.mp hp with hroot | hrest
      · subst hroot
        simp only
        split_ifs with harm
        · intro _ _
          exact armedElem_trapFlag c e cs
        · intro hm hv
          by_contra hflag
          exact harm ⟨hm, hv, by revert hflag; cases e.trapFlag <;> simp⟩
      · rw [List.map_map] at hrest
        obtain ⟨l, hl, hpl⟩ := List.mem_flatten.mp hrest
        obtain ⟨s, hs, rfl⟩ := List.mem_map.mp hl
        exact ih s hs (childCtx c e) p hpl

theorem detectNode_eq_self (c : Ctx) (t : Tree)
    (h : ∀ p ∈ t.nodesWith c,
      matchesDialogSelector p.2 = true → isVisuallyHiddenOwn p.2 = false →
        p.2.trapFlag = true) :
    detectNode c t = t := by
  induction t using Tree.ind generalizing c with
  | _ e cs ih =>
      rw [detectNode_node]
      have hroot : ¬(matchesDialogSelector e = true ∧
          isVisuallyHiddenOwn e = false ∧ e.trapFlag = false) := by
        rintro ⟨h1, h2, h3⟩
        have := h (c, e) (Tree.mem_nodesWith_self c e cs) h1 h2
        rw [this] at h3
        exact absurd h3 (by simp)
      rw [if_neg hroot]
      congr 1
      calc cs.map (fun s => detectNode (childCtx c e) s)
          = cs.map id := by
            refine List.map_congr_left (fun s hs => ?_)
            exact ih s hs (childCtx c e)
              (fun q hq => h q (Tree.mem_nodesWith_child c e cs s hs q hq))
        _ = cs := List.map_id cs

theorem Tree.mem_descWith_child (c : Ctx) (e : Elem) (cs : List Tree)
    (s : Tree) (hs : s ∈ cs) (p : Ctx × Elem)
    (hp : p ∈ s.nodesWith (childCtx c e)) :
    p ∈ Tree.descWith c (.node e cs) := by
  simp only [Tree.descWith]
  exact List.mem_flatten.mpr
    ⟨s.nodesWith (childCtx c e), List.mem_map_of_mem _ hs, hp⟩

theorem detect_scanFixed (c : Ctx) (t : Tree)
    (hfix : ∀ p ∈ Tree.descWith c t, scanElem p.1 p.2 = p.2)
    (hbad : ∀ p ∈ Tree.descWith c t, badDialog p.2 = false) :
    ∀ p ∈ Tree.descWith c (detectAndHandleDialogs c t),
      scanElem p.1 p.2 = p.2 := by
  rcases t with ⟨e, cs⟩
  rw [detectAndHandleDialogs_node]
  intro p hp
  simp only [Tree.descWith, List.map_map] at hp
  obtain ⟨l, hl, hpl⟩ := List.mem_flatten.mp hp
  obtain ⟨s, hs, rfl⟩ := List.mem_map.mp hl
  exact detectNode_scanFixed (childCtx c e) s
    (fun q hq => hfix q (Tree.mem_descWith_child c e cs s hs q hq))
    (fun q hq => hbad q (Tree.mem_descWith_child c e cs s hs q hq))
    p hpl

theorem detect_flagged (c : Ctx) (t : Tree) :
    ∀ p ∈ Tree.descWith c (detectAndHandleDialogs c t),
      matchesDialogSelector p.2 = true → isVisuallyHiddenOwn p.2 = false →
        p.2.trapFlag = true := by
  rcases t with ⟨e, cs⟩
  rw [detectAndHandleDialogs_node]
  intro p hp
  simp only [Tree.descWith, List.map_map] at hp
  obtain ⟨l, hl, hpl⟩ := List.mem_flatten.mp hp
  obtain ⟨s, hs, rfl⟩ := List.mem_map.mp hl
  exact detectNode_flagged (childCtx c e) s p hpl

theorem detect_eq_self (c : Ctx) (t : Tree)
    (h : ∀ p ∈ Tree.descWith c t,
      matchesDialogSelector p.2 = true → isVisuallyHiddenOwn p.2 = false →
        p.2.trapFlag = true) :
    detectAndHandleDialogs c t = t := by
  rcases t with ⟨e, cs⟩
  rw [detectAndHandleDialogs_node]
  congr 1
  calc cs.map (fun s => detectNode (childCtx c e) s)
      = cs.map id := by
        refine List.map_congr_left (fun s hs => ?_)
        exact detectNode_eq_self (childCtx c e) s
          (fun q hq => h q (Tree.mem_descWith_child c e cs s hs q hq))
    _ = cs := List.map_id cs

theorem processDynamicContent_eq (c : Ctx) (t : Tree) :
    processDynamicContent c t =
      detectAndHandleDialogs c (applyPass scanElem c t) := by
  unfold processDynamicContent
  rw [scanPasses_eq_applyPass]

theorem processDynamicContent_idem_of_noBadDialog (c : Ctx) (t : Tree)
    (hbad : ∀ p ∈ Tree.descWith c t, badDialog p.2 = false) :
    processDynamicContent c (processDynamicContent c t) =
      processDynamicContent c t := by
  have hsc : ∀ c2 e, childCtx c2 (scanElem c2 e) = childCtx c2 e :=
    fun c2 e => childCtx_scanElem c2 c2 e
  have hsfix : ∀ p ∈ Tree.descWith c (applyPass scanElem c t),
      scanElem p.1 p.2 = p.2 := by
    rw [Tree.descWith_applyPass scanElem hsc]
    intro p hp
    obtain ⟨q, hq, rfl⟩ := List.mem_map.mp hp
    exact scanElem_idem q.1 q.2
  have hsbad : ∀ p ∈ Tree.descWith c (applyPass scanElem c t),
      badDialog p.2 = false := by
    rw [Tree.descWith_applyPass scanElem hsc]
    intro p hp
    obtain ⟨q, hq, rfl⟩ := List.mem_map.mp hp
    rw [badDialog_scanElem]
    exact hbad q hq
  have h1 : ∀ p ∈ Tree.descWith c (processDynamicContent c t),
      scanElem p.1 p.2 = p.2 := by
    rw [processDynamicContent_eq]
    exact detect_scanFixed c _ hsfix hsbad
  have h2 : ∀ p ∈ Tree.descWith c (processDynamicContent c t),
      matchesDialogSelector p.2 = true → isVisuallyHiddenOwn p.2 = false →
        p.2.trapFlag = true := by
    rw [processDynamicContent_eq]
    exact detect_flagged c _
  calc processDynamicContent c (processDynamicContent c t)
      = detectAndHandleDialogs c
          (applyPass scanElem c (processDynamicContent c t)) :=
        processDynamicContent_eq c _
    _ = detectAndHandleDialogs c (processDynamicContent c t) := by
        rw [applyPass_eq_self _ _ _ h1]
    _ = processDynamicContent c t := detect_eq_self c _ h2

theorem fixS_no_pos : ∀ (bI bX bH bN bR bK bT bD : Bool) (k : TabClass),
    clsAfter (fixS bI bX bH bN bR bK bT bD k) k ≠ .pos := by
  decide

theorem fixTab_nonpos (c : Ctx) (e : Elem) (x : Option Int) (n : Int)
    (h : fixTab c e x = some n) : n ≤ 0 := by
  have hcls : clsOf (fixTab c e x) ≠ .pos := by
    rw [fixTab_sim, clsOf_symSem]
    exact fixS_no_pos _ _ _ _ _ _ _ _ _
  rw [h] at hcls
  have h2 : ¬ 0 < n := fun hlt => hcls ((clsOf_some_pos n).mpr hlt)
  omega

theorem fixElem_tabindex (c : Ctx) (e : Elem) :
    (fixElem c e).tabindex = fixTab c e e.tabindex := by
  rw [fixElem_char]

theorem fixElem_interactive (c : Ctx) (e : Elem) :
    isInteractiveElement c (fixElem c e) = isInteractiveElement c e := by
  rw [fixElem_char]
  rfl

theorem fixS_coverage : ∀ (bN bR bK bT bD : Bool) (k : TabClass),
    k ≠ .negOther →
      clsAfter (fixS true false false bN bR bK bT bD k) k ≠ .negOne ∧
      clsAfter (fixS true false false bN bR bK bT bD k) k ≠ .negOther := by
  decide

/-- Effective focus order of a node is non-negative: it carries a tabindex
attribute with a non-negative value, or carries none and is naturally
tabbable (matches the interactive selector set) with no negative tabindex. -/
def effOrderNonnegB (c : Ctx) (e : Elem) : Bool :=
  match e.tabindex with
  | some n => decide (0 ≤ n)
  | none => isInteractiveElement c e

theorem clsOf_ne_negOther (x : Option Int)
    (h : ∀ n : Int, x = some n → -1 ≤ n) : clsOf x ≠ .negOther := by
  rcases x with _ | n
  · simp [clsOf]
  · have := h n rfl
    simp only [clsOf]
    split_ifs <;> simp_all <;> omega

theorem clsOf_nonneg_of_ne (n : Int) (h1 : clsOf (some n) ≠ .negOne)
    (h2 : clsOf (some n) ≠ .negOther) : 0 ≤ n := by
  revert h1 h2
  simp only [clsOf]
  split_ifs <;> simp_all <;> omega

theorem fixElem_coverage (c : Ctx) (e : Elem)
    (hI : isInteractiveElement c e = true)
    (hv : isVisuallyHiddenOwn e = false)
    (hp : c.parentHidden = false)
    (ha : e.ariaHidden = false)
    (hneg : ∀ n : Int, e.tabindex = some n → -1 ≤ n) :
    effOrderNonnegB c (fixElem c e) = true := by
  have hX : shouldBeRemovedFromTabOrder c e = false := by
    unfold shouldBeRemovedFromTabOrder
    rw [hv, hp, ha]
    rfl
  have hH : (isVisuallyHiddenOwn e || c.parentHidden) = false := by
    rw [hv, hp]
    rfl
  have hk : clsOf e.tabindex ≠ .negOther := clsOf_ne_negOther _ hneg
  have hcls : clsOf ((fixElem c e).tabindex) ≠ .negOne ∧
      clsOf ((fixElem c e).tabindex) ≠ .negOther := by
    rw [fixElem_tabindex, fixTab_sim, clsOf_symSem, hI, hX, hH]
    exact fixS_coverage _ _ _ _ _ _ hk
  rcases hy : (fixElem c e).tabindex with _ | n
  · unfold effOrderNonnegB
    rw [hy, fixElem_interactive, hI]
  · unfold effOrderNonnegB
    rw [hy]
    rw [hy] at hcls
    exact decide_eq_true (clsOf_nonneg_of_ne n hcls.1 hcls.2)

/-- An audit entry with an explicit positive order value. -/
def posEntry (a : TabEntry) : Bool := decide (0 < a.tabindex)

theorem mem_sortInsert (x : TabEntry) (M : List TabEntry) (z : TabEntry) :
    z ∈ sortInsert x M ↔ z = x ∨ z ∈ M := by
  induction M with
  | nil => simp [sortInsert]
  | cons y ys ih =>
      unfold sortInsert
      split_ifs <;> simp only [List.mem_cons, ih] <;> tauto

theorem mem_stableSort (M : List TabEntry) (z : TabEntry) :
    z ∈ stableSort M ↔ z ∈ M := by
  induction M with
  | nil => simp [stableSort]
  | cons y ys ih =>
      unfold stableSort
      rw [mem_sortInsert, ih, List.mem_cons]

theorem compareEntries_nonpos_nonpos (y x : TabEntry)
    (hy : ¬ 0 < y.tabindex) (hx : ¬ 0 < x.tabindex) :
    compareEntries y x = 0 := by
  unfold compareEntries
  rw [if_neg (by tauto), if_neg hy, if_neg hx]

theorem compareEntries_pos_nonpos (y x : TabEntry)
    (hy : 0 < y.tabindex) (hx : ¬ 0 < x.tabindex) :
    compareEntries y x = -1 := by
  unfold compareEntries
  rw [if_neg (by tauto), if_pos hy]

theorem compareEntries_nonpos_pos (y x : TabEntry)
    (hy : ¬ 0 < y.tabindex) (hx : 0 < x.tabindex) :
    compareEntries y x = 1 := by
  unfold compareEntries
  rw [if_neg (by tauto), if_neg hy, if_pos hx]

theorem compareEntries_pos_pos (y x : TabEntry)
    (hy : 0 < y.tabindex) (hx : 0 < x.tabindex) :
    compareEntries y x = y.tabindex - x.tabindex := by
  unfold compareEntries
  rw [if_pos ⟨hy, hx⟩]

theorem sortInsert_nonpos (x : TabEntry) (P Z : List TabEntry)
    (hx : ¬ 0 < x.tabindex) (hP : ∀ a ∈ P, 0 < a.tabindex)
    (hZ : ∀ a ∈ Z, ¬ 0 < a.tabindex) :
    sortInsert x (P ++ Z) = P ++ x :: Z := by
  induction P with
  | nil =>
      rcases Z with _ | ⟨z, zs⟩
      · rfl
      · simp only [List.nil_append]
        unfold sortInsert
        rw [compareEntries_nonpos_nonpos z x (hZ z (List.mem_cons_self z zs)) hx]
        simp
  | cons y ys ih =>
      simp only [List.cons_append]
      unfold sortInsert
      rw [compareEntries_pos_nonpos y x (hP y (List.mem_cons_self y ys)) hx]
      rw [if_pos (by norm_num)]
      rw [ih (fun a ha => hP a (List.mem_cons_of_mem y ha))]

theorem sortInsert_pos_append (x : TabEntry) (P Z : List TabEntry)
    (hx : 0 < x.tabindex) (hP : ∀ a ∈ P, 0 < a.tabindex)
    (hZ : ∀ a ∈ Z, ¬ 0 < a.tabindex) :
    sortInsert x (P ++ Z) = sortInsert x P ++ Z := by
  induction P with
  | nil =>
      rcases Z with _ | ⟨z, zs⟩
      · rfl
      · simp only [List.nil_append]
        unfold sortInsert
        rw [compareEntries_nonpos_pos z x (hZ z (List.mem_cons_self z zs)) hx]
        rw [if_neg (by norm_num)]
        rfl
  | cons y ys ih =>
      simp only [List.cons_append]
      unfold sortInsert
      rw [compareEntries_pos_pos y x (hP y (List.mem_cons_self y ys)) hx]
      split_ifs
      · rw [ih (fun a ha => hP a (List.mem_cons_of_mem y ha))]
        rfl
      · rfl

theorem stableSort_split (L : List TabEntry) :
    stableSort L =
      stableSort (L.filter posEntry) ++ L.filter (fun a => !posEntry a) := by
  induction L with
  | nil => rfl
  | cons x L2 ih =>
      have hP : ∀ a ∈ stableSort (L2.filter posEntry), 0 < a.tabindex := by
        intro a ha
        have := (mem_stableSort _ a).mp ha
        have := (List.mem_filter.mp this).2
        exact of_decide_eq_true this
      have hZ : ∀ a ∈ L2.filter (fun a => !posEntry a), ¬ 0 < a.tabindex := by
        intro a ha
        have := (List.mem_filter.mp ha).2
        simp only [posEntry, Bool.not_eq_eq_eq_not, Bool.not_true,
          decide_eq_false_iff_not] at this
        exact this
      by_cases hx : 0 < x.tabindex
      · have hpx : posEntry x = true := decide_eq_true hx
        rw [stableSort, ih, sortInsert_pos_append x _ _ hx hP hZ]
        simp only [List.filter_cons, hpx, Bool.not_true, if_true]
        rw [stableSort]
        simp
      · have hpx : posEntry x = false := decide_eq_false hx
        rw [stableSort, ih, sortInsert_nonpos x _ _ hx hP hZ]
        simp [List.filter_cons, hpx]

theorem pairwise_sortInsert (x : TabEntry) (M : List TabEntry)
    (hx : 0 < x.tabindex) (hM : ∀ a ∈ M, 0 < a.tabindex)
    (h : List.Pairwise (fun a b => a.tabindex ≤ b.tabindex) M) :
    List.Pairwise (fun a b => a.tabindex ≤ b.tabindex) (sortInsert x M) := by
  induction M with
  | nil => simp [sortInsert]
  | cons y ys ih =>
      rw [List.pairwise_cons] at h
      unfold sortInsert
      rw [compareEntries_pos_pos y x (hM y (List.mem_cons_self y ys)) hx]
      split_ifs with hlt
      · rw [List.pairwise_cons]
        constructor
        · intro z hz
          rcases (mem_sortInsert x ys z).mp hz with rfl | hz2
          · omega
          · exact h.1 z hz2
        · exact ih (fun a ha => hM a (List.mem_cons_of_mem y ha)) h.2
      · rw [List.pairwise_cons]
        constructor
        · intro z hz
          rcases List.mem_cons.mp hz with rfl | hz2
          · omega
          · have := h.1 z hz2
            omega
        · rw [List.pairwise_cons]
          exact ⟨h.1, h.2⟩

theorem pairwise_stableSort (M : List TabEntry)
    (hM : ∀ a ∈ M, 0 < a.tabindex) :
    List.Pairwise (fun a b => a.tabindex ≤ b.tabindex) (stableSort M) := by
  induction M with
  | nil => simp [stableSort]
  | cons y ys ih =>
      rw [stableSort]
      refine pairwise_sortInsert y _ (hM y (List.mem_cons_self y ys)) ?_ ?_
      · intro a ha
        exact hM a (List.mem_cons_of_mem y ((mem_stableSort ys a).mp ha))
      · exact ih (fun a ha => hM a (List.mem_cons_of_mem y ha))

theorem filter_sortInsert_key (x : TabEntry) (M : List TabEntry) (v : Int)
    (hx : 0 < x.tabindex) (hM : ∀ a ∈ M, 0 < a.tabindex) :
    (sortInsert x M).filter (fun a => decide (a.tabindex = v)) =
      if x.tabindex = v
      then x :: M.filter (fun a => decide (a.tabindex = v))
      else M.filter (fun a => decide (a.tabindex = v)) := by
  induction M with
  | nil =>
      by_cases hv : x.tabindex = v <;>
        simp [sortInsert, List.filter_cons, hv]
  | cons y ys ih =>
      have hy := hM y (List.mem_cons_self y ys)
      have hys := fun a ha => hM a (List.mem_cons_of_mem y ha)
      unfold sortInsert
      rw [compareEntries_pos_pos y x hy hx]
      by_cases hlt : y.tabindex - x.tabindex < 0
      · rw [if_pos hlt]
        by_cases hv : x.tabindex = v
        · have hyv : ¬ y.tabindex = v := by omega
          simp [hv, hyv, List.filter_cons, ih hys]
        · simp [hv, List.filter_cons, ih hys]
      · rw [if_neg hlt]
        by_cases hv : x.tabindex = v
        · simp [hv, List.filter_cons]
        · simp [hv, List.filter_cons]

theorem filter_stableSort_key (M : List TabEntry) (v : Int)
    (hM : ∀ a ∈ M, 0 < a.tabindex) :
    (stableSort M).filter (fun a => decide (a.tabindex = v)) =
      M.filter (fun a => decide (a.tabindex = v)) := by
  induction M with
  | nil => rfl
  | cons y ys ih =>
      rw [stableSort]
      rw [filter_sortInsert_key y _ v (hM y (List.mem_cons_self y ys))
        (fun a ha => hM a (List.mem_cons_of_mem y ((mem_stableSort ys a).mp ha)))]
      rw [ih (fun a ha => hM a (List.mem_cons_of_mem y ha))]
      by_cases hv : y.tabindex = v <;> simp [List.filter_cons, hv]

theorem implicitEntries_zero (c : Ctx) (t : Tree) :
    ∀ a ∈ implicitEntries c t, a.tabindex = 0 := by
  intro a ha
  unfold implicitEntries at ha
  obtain ⟨q, hq, heq⟩ := List.mem_filterMap.mp ha
  by_cases hcond : isInteractiveElement q.1 q.2 = true ∧ q.2.tabindex = none ∧
      shouldBeRemovedFromTabOrder q.1 q.2 = false
  · rw [if_pos hcond] at heq
    cases heq
    rfl
  · rw [if_neg hcond] at heq
    cases heq

theorem headD_eq_head (l : List Elem) (h : l ≠ []) :
    l.headD default = l.head h := by
  rcases l with _ | ⟨a, as⟩
  · exact absurd rfl h
  · rfl

theorem getLastD_eq_getLast (l : List Elem) (h : l ≠ []) :
    l.getLastD default = l.getLast h := by
  rw [List.getLastD_eq_getLast?, List.getLast?_eq_getLast _ h]
  rfl

theorem analyzeTabOrder_characterization (c : Ctx) (t : Tree) :
    analyzeTabOrder c t =
      stableSort ((explicitEntries c t).filter posEntry) ++
        (explicitEntries c t).filter (fun a => !posEntry a) ++
        implicitEntries c t := by
  unfold analyzeTabOrder
  rw [stableSort_split, List.filter_append, List.filter_append]
  have h1 : (implicitEntries c t).filter posEntry = [] := by
    rw [List.filter_eq_nil_iff]
    intro a ha
    have := implicitEntries_zero c t a ha
    simp [posEntry, this]
  have h2 : (implicitEntries c t).filter (fun a => !posEntry a) =
      implicitEntries c t := by
    rw [List.filter_eq_self]
    intro a ha
    have := implicitEntries_zero c t a ha
    simp [posEntry, this]
  rw [h1, h2, List.append_nil, List.append_assoc]

def containerDiv : Elem := { tag := Tag.div }

def containerCtx : Ctx := childCtx {} containerDiv

/-- C1 counterexample: an empty visible modal container (class modal,
aria-modal true, no role, no keyboard handler attributes). The first
processDynamicContent run arms it and assigns it tabindex 0; the second run
strips that attribute in the validate pass and the armed marker prevents
re-assignment, so the tree state after the second run differs from the
state after the first. -/
def c1modal : Elem := { tag := Tag.div, classes := ["modal"], ariaModal := some "true" }

def c1tree : Tree := .node containerDiv [.node c1modal []]

theorem wcag_c1_counterexample :
    (processDynamicContent {} c1tree).tabindexes = [none, some 0] ∧
    (processDynamicContent {} (processDynamicContent {} c1tree)).tabindexes =
      [none, none] ∧
    (processDynamicContent {} (processDynamicContent {} c1tree)).tabindexes ≠
      (processDynamicContent {} c1tree).tabindexes := by
  decide

/-- C1 (amended): fix run twice leaves the tabindex attribute of every node
identical to the state after one run; processDynamicContent is likewise
idempotent provided no descendant matches the dialog selector set while
being a generic container without role attribute and without inline
keyboard handler (for such an empty armed modal the trap-assigned tabindex
is stripped by the next run). -/
theorem wcag_c1_amended :
    (∀ (c : Ctx) (t : Tree),
      (fix c (fix c t)).tabindexes = (fix c t).tabindexes) ∧
    (∀ (c : Ctx) (t : Tree), (∀ p ∈ Tree.descWith c t, badDialog p.2 = false) →
      (processDynamicContent c (processDynamicContent c t)).tabindexes =
        (processDynamicContent c t).tabindexes) := by
  constructor
  · intro c t
    rw [fix_idem]
  · intro c t h
    rw [processDynamicContent_idem_of_noBadDialog c t h]

def c1w : Tree :=
  .node containerDiv
    [.node { tag := Tag.a, hasHref := true, tabindex := some (-1) } [],
     .node { tag := Tag.div, tabindex := some 5 } []]

theorem wcag_c1_witness :
    (∀ p ∈ Tree.descWith {} c1w, badDialog p.2 = false) ∧
    (fix {} (fix {} c1w)).tabindexes = (fix {} c1w).tabindexes ∧
    (processDynamicContent {} (processDynamicContent {} c1w)).tabindexes =
      (processDynamicContent {} c1w).tabindexes :=
  ⟨by decide, wcag_c1_amended.1 {} c1w, wcag_c1_amended.2 {} c1w (by decide)⟩

/-- C2: after one fix run with default options, no node within the scanned
root carries a tabindex attribute with a value strictly greater than 0. -/
theorem wcag_c2_no_positive_leakage (c : Ctx) (t : Tree) :
    ∀ p ∈ Tree.descWith c (fix c t), ∀ n : Int, p.2.tabindex = some n →
      ¬ 0 < n := by
  intro p hp n hn
  rw [fix_eq_applyPass,
    Tree.descWith_applyPass fixElem (fun c2 e => childCtx_fixElem c2 c2 e)] at hp
  obtain ⟨q, hq, rfl⟩ := List.mem_map.mp hp
  rw [fixElem_tabindex] at hn
  have := fixTab_nonpos q.1 q.2 _ n hn
  omega

def c2link : Elem := { tag := Tag.a, hasHref := true }

def c2tree : Tree := .node containerDiv [.node c2link []]

theorem wcag_c2_witness :
    (containerCtx, fixElem containerCtx c2link) ∈
        Tree.descWith {} (fix {} c2tree) ∧
    (fixElem containerCtx c2link).tabindex = some 0 ∧
    ¬ (0 : Int) < 0 :=
  ⟨by decide, by decide,
   wcag_c2_no_positive_leakage {} c2tree (containerCtx, fixElem containerCtx c2link)
     (by decide) 0 (by decide)⟩

/-- C3 (amended): every node of the scanned root that matches the
interactive selector set, is not hidden by itself or an ancestor, carries
no aria-hidden, and whose initial tabindex is not an explicit negative
value other than -1, has effective focus order at least 0 after one fix
run: its image in the output tree carries a non-negative tabindex or
carries none while remaining naturally tabbable. -/
theorem wcag_c3_amended (c : Ctx) (t : Tree) (p : Ctx × Elem)
    (hp : p ∈ Tree.descWith c t)
    (hI : isInteractiveElement p.1 p.2 = true)
    (hv : isVisuallyHiddenOwn p.2 = false)
    (hpar : p.1.parentHidden = false)
    (ha : p.2.ariaHidden = false)
    (hneg : ∀ n : Int, p.2.tabindex = some n → -1 ≤ n) :
    (p.1, fixElem p.1 p.2) ∈ Tree.descWith c (fix c t) ∧
      effOrderNonnegB p.1 (fixElem p.1 p.2) = true := by
  constructor
  · rw [fix_eq_applyPass,
      Tree.descWith_applyPass fixElem (fun c2 e => childCtx_fixElem c2 c2 e)]
    exact List.mem_map.mpr ⟨p, hp, rfl⟩
  · exact fixElem_coverage p.1 p.2 hI hv hpar ha hneg

/-- C3 counterexample: a visible link with tabindex -2 satisfies every
hypothesis of the claim, yet fix leaves the -2 untouched (the negative
repair pass only selects the literal attribute value -1), so the effective
focus order after the scan is negative. -/
def c3link : Elem := { tag := Tag.a, hasHref := true, tabindex := some (-2) }

def c3tree : Tree := .node containerDiv [.node c3link []]

theorem wcag_c3_counterexample :
    isInteractiveElement containerCtx c3link = true ∧
    isVisuallyHiddenOwn c3link = false ∧
    containerCtx.parentHidden = false ∧
    c3link.ariaHidden = false ∧
    Tree.descWith {} (fix {} c3tree) = [(containerCtx, c3link)] ∧
    effOrderNonnegB containerCtx c3link = false := by
  decide

def c3wlink : Elem := { tag := Tag.a, hasHref := true, tabindex := some (-1) }

def c3wtree : Tree := .node containerDiv [.node c3wlink []]

theorem wcag_c3_witness :
    (containerCtx, c3wlink) ∈ Tree.descWith {} c3wtree ∧
    ((containerCtx, fixElem containerCtx c3wlink) ∈
        Tree.descWith {} (fix {} c3wtree) ∧
      effOrderNonnegB containerCtx (fixElem containerCtx c3wlink) = true) :=
  ⟨by decide,
   wcag_c3_amended {} c3wtree (containerCtx, c3wlink) (by decide) (by decide)
     (by decide) (by decide) (by decide)
     (by
       intro n hn
       have h2 : some (-1 : Int) = some n := hn
       have h3 := Option.some.inj h2
       omega)⟩

/-- C4 counterexample: in a subtree with one visible link with tabindex -1
and one generic div with tabindex 5, no role and no keyboard handler
attributes, fix sets the link to 0 but removes the div tabindex attribute
entirely in the validate pass: the final state is not the claimed 0. -/
def c4link : Elem := { tag := Tag.a, hasHref := true, tabindex := some (-1) }

def c4div : Elem := { tag := Tag.div, tabindex := some 5 }

def c4tree : Tree := .node containerDiv [.node c4link [], .node c4div []]

theorem wcag_c4_counterexample :
    (fix {} c4tree).tabindexes = [none, some 0, none] ∧
    (fix {} c4tree).tabindexes ≠ [none, some 0, some 0] := by
  decide

/-- C4 (amended): after one fix run the link carries tabindex 0 and the
div carries no tabindex attribute at all, the stray-order pass having
removed it after the positive value was first collapsed to 0. -/
theorem wcag_c4_amended :
    Tree.descWith {} (fix {} c4tree) =
      [(containerCtx, { c4link with tabindex := some 0 }),
       (containerCtx, { c4div with tabindex := none })] := by
  decide

/-- C5: for a region with non-empty tabbable member list at trap time, the
installed key intercept wraps: forward Tab on the last member prevents
default and focuses the first, Shift Tab on the first member prevents
default and focuses the last, and Tab events from any other focus position
perform no action. -/
theorem wcag_c5_trap_containment (c : Ctx) (t : Tree) (act : Option Elem)
    (opts : TrapOptions) (hne : findTabbableElements c t ≠ []) :
    ∃ a : ActiveTrap,
      (setupFocusTrap c (some t) act opts).handle = .active a ∧
      a.first = (findTabbableElements c t).head hne ∧
      a.last = (findTabbableElements c t).getLast hne ∧
      a.tabbables = findTabbableElements c t ∧
      (∀ active : Elem,
        handleKeyDown c t a ⟨"Tab", false⟩ active =
          if active = a.last then ⟨true, some a.first, none⟩
          else ⟨false, none, none⟩) ∧
      (∀ active : Elem,
        handleKeyDown c t a ⟨"Tab", true⟩ active =
          if active = a.first then ⟨true, some a.last, none⟩
          else ⟨false, none, none⟩) := by
  refine ⟨⟨(findTabbableElements c t).headD default,
           (findTabbableElements c t).getLastD default,
           findTabbableElements c t,
           (match opts.triggerElement with
            | some g => some g
            | none => act),
           decide (opts.returnFocusOnClose ≠ some false)⟩,
    ?_, ?_, ?_, rfl, ?_, ?_⟩
  · simp only [setupFocusTrap, if_neg hne]
  · exact headD_eq_head _ hne
  · exact getLastD_eq_getLast _ hne
  · intro active
    simp only [handleKeyDown]
    split_ifs <;> simp_all
  · intro active
    simp only [handleKeyDown]
    split_ifs <;> simp_all

def c5btnA : Elem := { tag := Tag.button, classes := ["A"] }

def c5btnB : Elem := { tag := Tag.button, classes := ["B"] }

def c5region : Tree :=
  .node { tag := Tag.div, role := some "dialog" }
    [.node c5btnA [], .node c5btnB []]

theorem wcag_c5_witness :
    findTabbableElements {} c5region ≠ [] ∧
    (∃ a : ActiveTrap,
      (setupFocusTrap {} (some c5region) none {}).handle = .active a ∧
      a.first = (findTabbableElements {} c5region).head
        (by decide : findTabbableElements {} c5region ≠ []) ∧
      a.last = (findTabbableElements {} c5region).getLast
        (by decide : findTabbableElements {} c5region ≠ []) ∧
      a.tabbables = findTabbableElements {} c5region ∧
      (∀ active : Elem,
        handleKeyDown {} c5region a ⟨"Tab", false⟩ active =
          if active = a.last then ⟨true, some a.first, none⟩
          else ⟨false, none, none⟩) ∧
      (∀ active : Elem,
        handleKeyDown {} c5region a ⟨"Tab", true⟩ active =
          if active = a.first then ⟨true, some a.last, none⟩
          else ⟨false, none, none⟩)) :=
  ⟨by decide, wcag_c5_trap_containment {} c5region none {} (by decide)⟩

/-- C6: the updateTabbableElements closure of a live trap handle raises a
TypeError whenever the freshly computed tabbable list is non-empty, because
it assigns to the const bindings firstTabbable and lastTabbable; here the
trap was installed on an empty dialog and a button was added afterwards. -/
def c6dialog : Elem := { tag := Tag.div, role := some "dialog" }

def c6empty : Tree := .node c6dialog []

def c6grown : Tree := .node c6dialog [.node { tag := Tag.button } []]

theorem wcag_c6_update_throws :
    (setupFocusTrap {} (some c6empty) none {}).handle ≠ .noop ∧
    findTabbableElements {} c6grown ≠ [] ∧
    updateTabbableElements {} c6grown
        (setupFocusTrap {} (some c6empty) none {}).handle =
      .error .typeError :=
  ⟨by decide, by decide, rfl⟩

/-- C7 counterexample: calling setupFocusTrap a second time on an already
armed region installs a second keydown intercept (the listener count goes
from 1 to 2) instead of being a no-op. -/
def c7region : Tree :=
  .node { tag := Tag.div, role := some "dialog" }
    [.node { tag := Tag.button } []]

theorem wcag_c7_counterexample :
    ((setupFocusTrap {} (some c7region) none {}).region.map
        (fun t2 => t2.rootElem.keydownListeners)) = some 1 ∧
    ((setupFocusTrap {}
        ((setupFocusTrap {} (some c7region) none {}).region) none {}).region.map
        (fun t2 => t2.rootElem.keydownListeners)) = some 2 := by
  decide

theorem setupFocusTrap_adds_listener (c : Ctx) (t : Tree) (act : Option Elem)
    (opts : TrapOptions) :
    (setupFocusTrap c (some t) act opts).region.map
        (fun t2 => t2.rootElem.keydownListeners) =
      some (t.rootElem.keydownListeners + 1) := by
  rcases t with ⟨e, cs⟩
  simp only [setupFocusTrap]
  by_cases hf : findTabbableElements c (.node e cs) = []
  · rw [if_pos hf]
    simp [Tree.setRootElem, Tree.rootElem]
  · rw [if_neg hf]
    simp [Tree.setRootElem, Tree.rootElem]

/-- C7 (amended): setupFocusTrap itself installs a fresh key intercept on
every call, so the at-most-one-session invariant is enforced only by the
dynamic content path: detectAndHandleDialogs marks armed dialogs with the
data-focus-trap-active attribute and skips marked regions, so re-running it
changes nothing. -/
theorem wcag_c7_amended :
    (∀ (c : Ctx) (t : Tree) (act : Option Elem) (opts : TrapOptions),
      (setupFocusTrap c (some t) act opts).region.map
          (fun t2 => t2.rootElem.keydownListeners) =
        some (t.rootElem.keydownListeners + 1)) ∧
    (∀ (c : Ctx) (t : Tree),
      detectAndHandleDialogs c (detectAndHandleDialogs c t) =
        detectAndHandleDialogs c t) :=
  ⟨setupFocusTrap_adds_listener,
   fun c t => detect_eq_self c _ (detect_flagged c t)⟩

/-- C8 counterexample: a subtree whose document order is a link (implicit
interactive, no tabindex) followed by a button with explicit tabindex 0.
The audit collects explicit entries first and the stable sort keeps both
zero entries in collection order, so the button precedes the link in the
output although the link precedes it in the document. -/
def c8link : Elem := { tag := Tag.a, hasHref := true }

def c8button : Elem := { tag := Tag.button, tabindex := some 0 }

def c8tree : Tree := .node containerDiv [.node c8link [], .node c8button []]

theorem wcag_c8_counterexample :
    Tree.descWith {} c8tree =
      [(containerCtx, c8link), (containerCtx, c8button)] ∧
    analyzeTabOrder {} c8tree = [⟨c8button, 0⟩, ⟨c8link, 0⟩] ∧
    analyzeTabOrder {} c8tree ≠ [⟨c8link, 0⟩, ⟨c8button, 0⟩] := by
  decide

/-- C8 (amended): the audit output is the explicit entries with positive
order sorted ascending with ties kept in document order, then the explicit
order-0 entries in document order, then the implicit (unmarked interactive)
entries in document order; explicit order-0 nodes and implicit nodes form
two separate groups rather than one group in document order. -/
theorem wcag_c8_amended (c : Ctx) (t : Tree) :
    (analyzeTabOrder c t =
      stableSort ((explicitEntries c t).filter posEntry) ++
        (explicitEntries c t).filter (fun a => !posEntry a) ++
        implicitEntries c t) ∧
    List.Pairwise (fun a b => a.tabindex ≤ b.tabindex)
      (stableSort ((explicitEntries c t).filter posEntry)) ∧
    (∀ v : Int,
      (stableSort ((explicitEntries c t).filter posEntry)).filter
          (fun a => decide (a.tabindex = v)) =
        ((explicitEntries c t).filter posEntry).filter
          (fun a => decide (a.tabindex = v))) := by
  refine ⟨analyzeTabOrder_characterization c t, ?_, ?_⟩
  · refine pairwise_stableSort _ (fun a ha => ?_)
    exact of_decide_eq_true (List.mem_filter.mp ha).2
  · intro v
    refine filter_stableSort_key _ v (fun a ha => ?_)
    exact of_decide_eq_true (List.mem_filter.mp ha).2

/-- C9 counterexample: the visibility test on an absent (null or undefined)
node raises a TypeError from getComputedStyle instead of reporting the node
hidden, and the ancestor walk likewise raises on an absent node. -/
theorem wcag_c9_counterexample :
    isVisuallyHidden none = .error .typeError ∧
    ¬ (isVisuallyHidden none = .ok true) ∧
    hasHiddenParent none [] = .error .typeError := by
  refine ⟨rfl, ?_, rfl⟩
  intro h
  rw [show isVisuallyHidden none = Except.error JSError.typeError from rfl] at h
  exact Except.noConfusion h

/-- C9 (amended): on an absent node both visibility tests raise a TypeError
rather than treating the node as hidden; on a present node isVisuallyHidden
returns the presentation verdict and hasHiddenParent reports whether some
ancestor is visually hidden or aria-hidden, both without error. -/
theorem wcag_c9_amended :
    isVisuallyHidden none = .error .typeError ∧
    (∀ e : Elem, isVisuallyHidden (some e) = .ok (isVisuallyHiddenOwn e)) ∧
    (∀ anc : List Elem, hasHiddenParent none anc = .error .typeError) ∧
    (∀ (e : Elem) (anc : List Elem),
      hasHiddenParent (some e) anc =
        .ok (anc.any (fun q => isVisuallyHiddenOwn q || q.ariaHidden))) :=
  ⟨rfl, fun _ => rfl, fun _ => rfl, fun _ _ => rfl⟩

/-- C10: setupFocusTrap on an absent region returns normally with the no-op
handle, whose remove and updateTabbableElements closures return normally,
mutate nothing, install no listener and move no focus. -/
theorem wcag_c10_null_region (c : Ctx) (act : Option Elem)
    (opts : TrapOptions) (t : Tree) :
    setupFocusTrap c none act opts = ⟨none, none, .noop⟩ ∧
    removeTrap t .noop = (t, none) ∧
    updateTabbableElements c t .noop = .ok .noop :=
  ⟨rfl, rfl, rfl⟩

end WcagTabindex
